import Mathlib

/-!
Verification of the striptun bandwidth-analysis pipeline (`bandwidth.py`,
`reports.py`).  Numeric arrays are embedded as lists of rationals: the Python
code computes with IEEE doubles, but every algorithm under study (filtering,
binning, medians, percentiles with linear interpolation, weighted moments,
offset lines) is exact rational arithmetic, so `ℚ` is a faithful carrier.
Standard errors are represented by their squares so that the square root never
leaves `ℚ`.  Functions that raise exceptions are embedded into `Except`;
functions that mutate their arguments return the updated state explicitly.
-/

namespace Striptun

/-- Sort a list of rationals in nondecreasing order (the order used by
`np.sort`, `np.median`, `np.percentile`). -/
def sortRat (l : List ℚ) : List ℚ :=
  l.insertionSort (· ≤ ·)

/-- Minimum of a list (`np.min`); 0 on the empty list, on which numpy errors
out instead, so results on `[]` are never relied upon by any theorem. -/
def minD (l : List ℚ) : ℚ :=
  match l with
  | [] => 0
  | x :: xs => xs.foldl min x

/-- Maximum of a list (`np.max`); 0 on the empty list (numpy errors there). -/
def maxD (l : List ℚ) : ℚ :=
  match l with
  | [] => 0
  | x :: xs => xs.foldl max x

/-- Median of a list (`np.median`): middle element of the sorted list, or the
mean of the two middle elements for even length. -/
def median (l : List ℚ) : ℚ :=
  let s := sortRat l
  if l.length % 2 = 1 then s.getD (l.length / 2) 0
  else (s.getD (l.length / 2 - 1) 0 + s.getD (l.length / 2) 0) / 2

/-- Population variance of a list: the square of `np.std` (default ddof=0). -/
def variance (l : List ℚ) : ℚ :=
  ((l.map (fun x => (x - l.sum / (l.length : ℚ)) ^ 2)).sum) / (l.length : ℚ)

/-- Percentile with linear interpolation, the `np.percentile` default: at
rank `h = (n-1)·q/100` interpolate between the surrounding sorted samples. -/
def percentile (l : List ℚ) (q : ℚ) : ℚ :=
  let s := sortRat l
  let h : ℚ := ((s.length : ℚ) - 1) * q / 100
  let k : ℕ := (Int.floor h).toNat
  s.getD k 0 + (h - (k : ℚ)) * (s.getD (k + 1) (s.getD k 0) - s.getD k 0)

/-- Column `i` of a row-major matrix (`arr[:, i]`). -/
def getCol (i : ℕ) (rows : List (List ℚ)) : List ℚ :=
  rows.filterMap (fun r => r.get? i)

/-- Columnwise median (`np.median(arr, axis=0)`); the column count is taken
from the first row, as numpy takes it from the array's rectangular shape. -/
def medianCols (rows : List (List ℚ)) : List ℚ :=
  (List.range (rows.headD []).length).map (fun i => median (getCol i rows))

/-- Columnwise population variance, the square of `np.std(arr, axis=0)`. -/
def varCols (rows : List (List ℚ)) : List ℚ :=
  (List.range (rows.headD []).length).map (fun i => variance (getCol i rows))

/-- Sorted distinct values of a list (`np.unique`). -/
def uniqueVals (l : List ℚ) : List ℚ :=
  sortRat l.dedup

/-- `SAMPLING_FREQUENCY_HZ = 25.0` from bandwidth.py. -/
def SAMPLING_FREQUENCY_HZ : ℚ := 25

/-- `NAMING_CONVENTION` from bandwidth.py. -/
def NAMING_CONVENTION : List String :=
  ["PW0/Q1", "PW1/U1", "PW2/U2", "PW3/Q2"]

/-! ## `get_frequency_range_and_data` (bandwidth.py lines 20-58) -/

/-- Embeds `get_frequency_range_and_data` with `std_dev=True`: filter out the
samples with non-positive frequency, bin by distinct frequency via
`np.unique(..., return_index=True, return_counts=True)` (index of first
occurrence `j`, total count `c`), and per bin take the columnwise median and
squared standard error of the slice `new_data_[j+rej : j+c-rej]`.  The
truncated-subtraction slice agrees with the Python slice whenever `rej ≤ j+c`,
which holds in every run the theorems quantify over. -/
def get_frequency_range_and_data (nu : List ℚ) (data : List (List ℚ))
    (rej : ℕ) : List ℚ × List (List ℚ) × List (List ℚ) :=
  let pairs := (nu.zip data).filter (fun p => decide (0 < p.1))
  let ys := pairs.map Prod.fst
  let ds := pairs.map Prod.snd
  let newNu := uniqueVals ys
  let newData := newNu.map (fun v =>
    medianCols ((ds.drop (ys.indexOf v + rej)).take (ys.count v - 2 * rej)))
  let newStdSq := newNu.map (fun v =>
    (varCols ((ds.drop (ys.indexOf v + rej)).take (ys.count v - 2 * rej))).map
      (fun t => t / (ys.count v : ℚ)))
  (newNu, newData, newStdSq)

/-- The samples of `data` recorded at exactly frequency `v`, in acquisition
order: the run of samples the specification assigns to the bin at `v`. -/
def samplesAt (v : ℚ) (nu : List ℚ) (data : List (List ℚ)) : List (List ℚ) :=
  ((nu.zip data).filter (fun p => decide (p.1 = v))).map Prod.snd

/-- Drop the first `rej` and the last `rej` elements of a list. -/
def trim (rej : ℕ) (l : List (List ℚ)) : List (List ℚ) :=
  (l.drop rej).take (l.length - 2 * rej)

/-! ## `remove_offset` (bandwidth.py lines 61-114) -/

/-- Rows of the first temporal half of `data` taken at the off-sentinel
frequency −1 (`firsthalf_data[firsthalf_nu == -1]`). -/
def offsetRowsFirst (nu : List ℚ) (data : List (List ℚ)) : List (List ℚ) :=
  (((nu.take (nu.length / 2)).zip (data.take (data.length / 2))).filter
    (fun p => decide (p.1 = -1))).map Prod.snd

/-- Rows of the second temporal half of `data` at the off-sentinel frequency
−1 (`secondhalf_data[secondhalf_nu == -1]`). -/
def offsetRowsSecond (nu : List ℚ) (data : List (List ℚ)) : List (List ℚ) :=
  (((nu.drop (nu.length / 2)).zip (data.drop (data.length / 2))).filter
    (fun p => decide (p.1 = -1))).map Prod.snd

/-- Slope and intercept of `np.polyfit(x, y, 1)` on two points with distinct
abscissae, where the degree-1 least-squares fit is the interpolating line. -/
def polyfit1 (x0 x1 y0 y1 : ℚ) : ℚ × ℚ :=
  let m := (y1 - y0) / (x1 - x0)
  (m, y0 - m * x0)

/-- Embeds `remove_offset`: per-detector median of the off-sentinel rows of
each temporal half, a straight line through those two offsets placed at
`x = min(nu[nu>0])` and `x = max(nu)`, evaluated at every sample's `nu` and
subtracted from `data` (the source loops detectors over `range(0, 4)`). -/
def remove_offset (nu : List ℚ) (data : List (List ℚ)) : List (List ℚ) :=
  let first_offset := medianCols (offsetRowsFirst nu data)
  let second_offset := medianCols (offsetRowsSecond nu data)
  let x0 := minD (nu.filter (fun t => decide (0 < t)))
  let x1 := maxD nu
  (nu.zip data).map (fun p =>
    (List.range 4).map (fun i =>
      let mb := polyfit1 x0 x1 (first_offset.getD i 0) (second_offset.getD i 0)
      p.2.getD i 0 - (p.1 * mb.1 + mb.2)))

/-! ## `find_blind_channel` (bandwidth.py lines 117-127) -/

/-- First index at which a list attains its minimum (`np.argmin`). -/
def argminIdx (l : List ℚ) : ℕ :=
  l.indexOf (minD l)

/-- The 95th-minus-5th percentile range of each column
(`np.percentile(data, 95, axis=0) - np.percentile(data, 5, axis=0)`). -/
def varRanges (rows : List (List ℚ)) : List ℚ :=
  (List.range (rows.headD []).length).map
    (fun i => percentile (getCol i rows) 95 - percentile (getCol i rows) 5)

/-- Embeds `find_blind_channel`: the blind index is the argmin of the
percentile ranges; the phase-switch status is set only for indices 0 and 3
(for any other index the Python variable `pss` stays unbound, embedded as
`none`). -/
def find_blind_channel (rows : List (List ℚ)) : ℕ × Option String :=
  let idx := argminIdx (varRanges rows)
  (idx, if idx = 0 then some "0110" else if idx = 3 then some "0101" else none)

/-! ## `get_central_nu_bandwidth` (bandwidth.py lines 130-154) -/

/-- Relative tolerance of `np.allclose`. -/
def RTOL : ℚ := 1 / 100000

/-- Absolute tolerance of `np.allclose`. -/
def ATOL : ℚ := 1 / 100000000

/-- Successive differences `nu[1:] - nu[:-1]`. -/
def diffsOf (nu : List ℚ) : List ℚ :=
  (nu.zip nu.tail).map (fun p => p.2 - p.1)

/-- `np.allclose(l, b)` against a scalar: every element within
`ATOL + RTOL·|b|` of `b`. -/
def allcloseTo (l : List ℚ) (b : ℚ) : Bool :=
  l.all (fun a => decide (|a - b| ≤ ATOL + RTOL * |b|))

/-- Embeds `get_central_nu_bandwidth` on a single detector column (the 1-D
path of the source, which promotes a 1-D input to one column and squeezes the
result back to scalars): reject a non-uniform frequency axis with the source's
`ValueError`, otherwise return the power-weighted mean frequency
`Σ(data·nu)/Σ(data)` and the equivalent noise bandwidth
`(Σ data)²·step/Σ(data²)`. -/
def get_central_nu_bandwidth (nu : List ℚ) (data : List ℚ) :
    Except String (ℚ × ℚ) :=
  if allcloseTo (diffsOf nu) ((diffsOf nu).headD 0) then
    Except.ok
      (((data.zip nu).map (fun p => p.1 * p.2)).sum / data.sum,
       data.sum ^ 2 * ((diffsOf nu).headD 0) / (data.map (fun x => x ^ 2)).sum)
  else Except.error "The frequency steps are not uniform! Check out!"

/-! ## The clamp and normalization steps of `AnalyzeBandTest`
(bandwidth.py lines 296 and 315-316) -/

/-- `new_data[new_data > 0] = 0`: clamp positive entries to 0. -/
def clampPos (rows : List (List ℚ)) : List (List ℚ) :=
  rows.map (List.map (fun x => if 0 < x then 0 else x))

/-- Normalize one detector column by the absolute value of its minimum
(`new_data[:, mask] / np.absolute(new_data[:, mask].min(axis=0))`). -/
def normColumn (col : List ℚ) : List ℚ :=
  col.map (fun x => x / |minD col|)

/-- The normalized non-blind columns of `AnalyzeBandTest`: the columns
selected by the boolean mask, each divided by the absolute value of its own
minimum. -/
def normMaskedCols (rows : List (List ℚ)) (mask : List Bool) :
    List (List ℚ) :=
  ((List.range mask.length).filter (fun i => mask.getD i false)).map
    (fun i => normColumn (getCol i rows))

/-! ## The aggregation step of `main` (bandwidth.py lines 364-381) -/

/-- The final-band uncertainty envelope of `main`:
`(np.percentile(norm_data_All, 97.7, axis=1) -
np.percentile(norm_data_All, 2.7, axis=1)) / 2`, one value per frequency row.
The lower percentile in the source is 2.7, not 2.3. -/
def final_band_err (norm_data_All : List (List ℚ)) : List ℚ :=
  norm_data_All.map
    (fun r => (percentile r (977 / 10) - percentile r (27 / 10)) / 2)

/-- The uncertainty `main` attaches to the final central frequency and to the
final bandwidth: `(np.percentile(arr, 97.7) - np.percentile(arr, 2.7)) / 2`
over the aggregate per-file array. -/
def aggregate_err (arr : List ℚ) : ℚ :=
  (percentile arr (977 / 10) - percentile arr (27 / 10)) / 2

/-- Modelled from the spec wording of the claim: half the spread between the
97.7th and the 2.3rd percentiles. -/
def claimed_aggregate_err (arr : List ℚ) : ℚ :=
  (percentile arr (977 / 10) - percentile arr (23 / 10)) / 2

/-! ## `build_dict_from_results` (bandwidth.py lines 232-256) -/

/-- Whether detector `i` is the blind one for phase-switch status `pss`:
the source condition `pss == '0101' and i == 3 or pss == '0110' and i == 0`. -/
def blindAt (pss : String) (i : ℕ) : Bool :=
  (pss == "0101" && i == 3) || (pss == "0110" && i == 0)

/-- One in-place update of a per-file row of `central_nu_det`/`bandwidth_det`:
the blind entry for `pss` is overwritten with 0. -/
def updateRow (pss : String) (row : List ℚ) : List ℚ :=
  row.enum.map (fun p => if blindAt pss p.1 then 0 else p.2)

/-- The state of the detector arrays after `build_dict_from_results` ran its
loop: row `j` is updated against `PSStatus[j]`; rows beyond the status list
are untouched. -/
def updatedDet (PSStatus : List String) (det : List (List ℚ)) :
    List (List ℚ) :=
  det.enum.map (fun p =>
    match PSStatus.get? p.1 with
    | some pss => updateRow pss p.2
    | none => p.2)

/-- The detector-label cleanup `nam.replace("/", "")`: with a single-character
pattern the replacement by the empty string drops every slash. -/
def stripSlash (s : String) : String :=
  String.mk (s.data.filter (fun ch => decide (ch ≠ '/')))

/-- The Report Parameter Mapping assembled by `build_dict_from_results`. -/
structure BandwidthResults where
  polarimeter_name : String
  title : String
  sampling_frequency : ℚ
  test_duration : ℚ
  final_central_nu : ℚ
  final_central_nu_err : ℚ
  final_bandwidth : ℚ
  final_bandwidth_err : ℚ
  psstatus : List (String × String)
  psentries : List (String × List (String × (ℚ × ℚ)))
  deriving Repr, DecidableEq

/-- Embeds `build_dict_from_results`.  The source mutates `central_nu_det`
and `bandwidth_det` in place inside its loop before reading them into the
result mapping; the embedding returns the mapping together with the two
updated arrays. -/
def build_dict_from_results (pol_name : String) (duration : ℚ)
    (PSStatus : List String) (central_nu_det bandwidth_det : List (List ℚ))
    (fcn fcne fbw fbwe : ℚ) :
    BandwidthResults × List (List ℚ) × List (List ℚ) :=
  let cnu := updatedDet PSStatus central_nu_det
  let bw := updatedDet PSStatus bandwidth_det
  ({ polarimeter_name := pol_name
     title := "Bandwidth test for polarimeter " ++ pol_name
     sampling_frequency := SAMPLING_FREQUENCY_HZ
     test_duration := duration / 60 / 60
     final_central_nu := fcn
     final_central_nu_err := fcne
     final_bandwidth := fbw
     final_bandwidth_err := fbwe
     psstatus := PSStatus.enum.map
       (fun p => ("PSStatus_" ++ toString p.1, p.2))
     psentries := PSStatus.enum.map (fun p =>
       ("ps" ++ p.2 ++ "_" ++ toString p.1,
        NAMING_CONVENTION.enum.map (fun q =>
          (stripSlash q.2,
           ((cnu.getD p.1 []).getD q.1 0, (bw.getD p.1 []).getD q.1 0))))) },
   cnu, bw)

/-! ## `create_report` (reports.py lines 12-65) -/

/-- Embeds the effect trace of `create_report`.  The body performs, in order:
copy the stylesheet, render the Markdown template (the Mako render fails when
the template references a key absent from `params`, abstracted here by the
list of keys the template references), write the Markdown report, build the
HTML wrapper from `params['title']` (a KeyError when `title` is absent), and
write the HTML report.  The result is the list of files written in
`output_path` before returning or failing, paired with the error if any. -/
def create_report (params : List (String × String))
    (templateRefs : List String) (md_report_file html_report_file : String) :
    List String × Option String :=
  let written := ["report_style.css"]
  match templateRefs.find? (fun k => (params.lookup k).isNone) with
  | some k => (written, some ("MissingData: template references " ++ k))
  | none =>
    let written2 := written ++ [md_report_file]
    match params.lookup "title" with
    | none => (written2, some "MissingData: title")
    | some _ => (written2 ++ [html_report_file], none)

/-- A uniform frequency grid of `n` samples starting at `nu0` with step `d`
(input family for the rectangular-response claim). -/
def arithGrid (nu0 d : ℚ) (n : ℕ) : List ℚ :=
  (List.range n).map (fun i : ℕ => nu0 + (i : ℚ) * d)

/-- A rectangular detector response: the constant `A` on the index window
`[j, j+w)` of an `n`-sample grid, 0 elsewhere. -/
def rectCol (A : ℚ) (j w n : ℕ) : List ℚ :=
  (List.range n).map (fun i => if j ≤ i ∧ i < j + w then A else 0)

/-! ## Claim C1 -/

/-- C1: the claim states that the aggregation step of `main` uses the
percentile pair 2.3 / 97.7 for all three uncertainty computations.  The
source uses 2.7 as the lower percentile in all three (lines 366-381).  On the
concrete aggregate array `[0, 100]` the code's half-spread is `95/2 = 47.5`,
while the claimed 2.3-based half-spread is `477/10 = 47.7`; the two disagree,
and the final-band envelope inherits the same 2.7-based value. -/
theorem c1_percentile_pair_code_eval :
    aggregate_err [0, 100] = 95 / 2 ∧
    claimed_aggregate_err [0, 100] = 477 / 10 ∧
    aggregate_err [0, 100] ≠ claimed_aggregate_err [0, 100] ∧
    final_band_err [[0, 100]] = [95 / 2] := by
  refine ⟨?_, ?_, ?_, ?_⟩ <;>
    norm_num [aggregate_err, claimed_aggregate_err, final_band_err,
      percentile, sortRat, List.insertionSort, List.orderedInsert]

/-! ## Claim C9 -/

/-- C9 counterexample: calling `create_report` with a `params` mapping that
lacks `title` (and a template referencing no keys) fails, yet the stylesheet
copy and the Markdown report were already written to the output directory, so
the failed call does produce partial output, contrary to the claim. -/
theorem c9_counterexample :
    (create_report [] [] "bandwidth_report.md" "bandwidth_report.html").2.isSome
      = true ∧
    (create_report [] [] "bandwidth_report.md" "bandwidth_report.html").1
      = ["report_style.css", "bandwidth_report.md"] := by
  constructor <;> rfl

/-- C9 amended: `create_report` does fail whenever `params` lacks a `title`
key, but partial output is produced: the stylesheet has always been copied
already, the Markdown report has additionally been written unless template
rendering failed first, and only the HTML report is never written. -/
theorem c9_missing_title_fails_after_partial_output
    (params : List (String × String)) (refs : List String)
    (mdf htmlf : String) (h : params.lookup "title" = none) :
    (create_report params refs mdf htmlf).2.isSome = true ∧
    ((create_report params refs mdf htmlf).1 = ["report_style.css"] ∨
     (create_report params refs mdf htmlf).1 = ["report_style.css", mdf]) := by
  unfold create_report
  cases hf : refs.find? (fun k => (params.lookup k).isNone) with
  | some k => simp
  | none => simp [h]

/-- Witness for `c9_missing_title_fails_after_partial_output` at a concrete
call whose params have no `title` key. -/
theorem c9_missing_title_fails_after_partial_output_witness :
    (create_report [("x", "y")] ["x"] "r.md" "r.html").2.isSome = true ∧
    ((create_report [("x", "y")] ["x"] "r.md" "r.html").1
        = ["report_style.css"] ∨
     (create_report [("x", "y")] ["x"] "r.md" "r.html").1
        = ["report_style.css", "r.md"]) :=
  c9_missing_title_fails_after_partial_output [("x", "y")] ["x"]
    "r.md" "r.html" rfl

/-! ## Claim C2 -/

/-- C2: `get_central_nu_bandwidth` raises the non-uniform-grid `ValueError`
exactly when the successive frequency differences fail the `np.allclose`
tolerance check against the first difference, and on that branch nothing is
computed (an `Except.error` carries no partial result); with uniform steps
the error is never raised.  The hypothesis `2 ≤ nu.length` restricts to axes
with at least one difference, where the source's access to the first
difference is in bounds. -/
theorem c2_nonuniform_grid_rejection (nu data : List ℚ)
    (h2 : 2 ≤ nu.length) :
    (allcloseTo (diffsOf nu) ((diffsOf nu).headD 0) = false →
      get_central_nu_bandwidth nu data =
        Except.error "The frequency steps are not uniform! Check out!") ∧
    (allcloseTo (diffsOf nu) ((diffsOf nu).headD 0) = true →
      ∃ r, get_central_nu_bandwidth nu data = Except.ok r) := by
  constructor
  · intro h
    have h1 : allcloseTo (diffsOf nu) ((diffsOf nu).head?.getD 0) = false := by
      simpa [List.headD_eq_head?_getD] using h
    simp [get_central_nu_bandwidth, h1]
  · intro h
    have h1 : allcloseTo (diffsOf nu) ((diffsOf nu).head?.getD 0) = true := by
      simpa [List.headD_eq_head?_getD] using h
    cases hE : get_central_nu_bandwidth nu data with
    | ok r => exact ⟨r, rfl⟩
    | error e => simp [get_central_nu_bandwidth, h1] at hE

/-- Witness for `c2_nonuniform_grid_rejection`: the axis `[0, 1, 3]` has
non-uniform steps and is rejected; the axis `[0, 1, 2]` has uniform steps and
produces a result. -/
theorem c2_nonuniform_grid_rejection_witness :
    (2 ≤ ([0, 1, 3] : List ℚ).length) ∧
    get_central_nu_bandwidth [0, 1, 3] [1, 2, 3] =
      Except.error "The frequency steps are not uniform! Check out!" ∧
    ∃ r, get_central_nu_bandwidth [0, 1, 2] [1, 2, 3] = Except.ok r := by
  refine ⟨by norm_num,
    (c2_nonuniform_grid_rejection [0, 1, 3] [1, 2, 3] (by norm_num)).1 ?_,
    (c2_nonuniform_grid_rejection [0, 1, 2] [1, 2, 3] (by norm_num)).2 ?_⟩
  · norm_num [allcloseTo, diffsOf, ATOL, RTOL]
  · norm_num [allcloseTo, diffsOf, ATOL, RTOL]

/-! ## Order facts about `minD` -/

theorem foldl_min_le_init (l : List ℚ) : ∀ a : ℚ, l.foldl min a ≤ a := by
  induction l with
  | nil => intro a; exact le_refl a
  | cons b t ih => intro a; exact le_trans (ih (min a b)) (min_le_left a b)

theorem foldl_min_le_mem (l : List ℚ) :
    ∀ a x : ℚ, x ∈ l → l.foldl min a ≤ x := by
  induction l with
  | nil => intro a x hx; cases hx
  | cons b t ih =>
    intro a x hx
    rcases List.mem_cons.mp hx with h | h
    · subst h
      exact le_trans (foldl_min_le_init t (min a x)) (min_le_right a x)
    · exact ih (min a b) x h

theorem foldl_min_mem_or (l : List ℚ) :
    ∀ a : ℚ, l.foldl min a = a ∨ l.foldl min a ∈ l := by
  induction l with
  | nil => intro a; exact Or.inl rfl
  | cons b t ih =>
    intro a
    rcases ih (min a b) with h | h
    · rcases min_choice a b with hm | hm
      · exact Or.inl (by rw [List.foldl_cons, h, hm])
      · refine Or.inr ?_
        rw [List.foldl_cons, h, hm]
        exact List.mem_cons_self b t
    · exact Or.inr (List.mem_cons_of_mem b h)

/-- The list minimum is a lower bound for the list's elements. -/
theorem minD_le (l : List ℚ) (x : ℚ) (hx : x ∈ l) : minD l ≤ x := by
  cases l with
  | nil => cases hx
  | cons b t =>
    rcases List.mem_cons.mp hx with h | h
    · subst h
      exact foldl_min_le_init t x
    · exact foldl_min_le_mem t b x h

/-- The list minimum of a nonempty list is attained by an element. -/
theorem minD_mem (l : List ℚ) (h : l ≠ []) : minD l ∈ l := by
  cases l with
  | nil => exact absurd rfl h
  | cons b t =>
    rcases foldl_min_mem_or t b with h1 | h1
    · rw [show minD (b :: t) = t.foldl min b from rfl, h1]
      exact List.mem_cons_self b t
    · exact List.mem_cons_of_mem b h1

/-- Elements read with `getD` inside the bounds belong to the list. -/
theorem getD_mem_of_lt (l : List ℚ) (i : ℕ) (h : i < l.length) :
    l.getD i 0 ∈ l := by
  rw [List.getD_eq_getElem l 0 h]
  exact List.getElem_mem h

/-! ## Claim C4 -/

/-- Every entry of a column of the clamped matrix is non-positive. -/
theorem getCol_clampPos_nonpos (rows : List (List ℚ)) (i : ℕ) (x : ℚ)
    (hx : x ∈ getCol i (clampPos rows)) : x ≤ 0 := by
  rcases List.mem_filterMap.mp hx with ⟨r, hr, hget⟩
  rcases List.mem_map.mp hr with ⟨r0, _, rfl⟩
  rw [List.get?_map] at hget
  rcases Option.map_eq_some'.mp hget with ⟨y, _, rfl⟩
  by_cases hy : 0 < y
  · simp [hy]
  · simpa [hy] using le_of_not_lt hy

/-- C4: after `AnalyzeBandTest` clamps positive binned powers to 0 and
divides every mask-selected column by the absolute value of its own minimum,
each retained column is one of the returned normalized columns, all its
values lie in `[-1, 0]`, and the value −1 is attained at the position of the
pre-normalization minimum — provided that minimum is negative (the
non-degenerate case singled out by the claim). -/
theorem c4_normalization_range (rows : List (List ℚ)) (mask : List Bool)
    (i : ℕ) (hm : mask.getD i false = true)
    (hneg : minD (getCol i (clampPos rows)) < 0) :
    normColumn (getCol i (clampPos rows)) ∈ normMaskedCols (clampPos rows) mask ∧
    (∀ x ∈ normColumn (getCol i (clampPos rows)), -1 ≤ x ∧ x ≤ 0) ∧
    (-1 : ℚ) ∈ normColumn (getCol i (clampPos rows)) := by
  have habs : |minD (getCol i (clampPos rows))| = -minD (getCol i (clampPos rows)) :=
    abs_of_neg hneg
  have hpos : 0 < -minD (getCol i (clampPos rows)) := neg_pos.mpr hneg
  refine ⟨?_, ?_, ?_⟩
  · have hi : i < mask.length := by
      by_contra hge
      rw [List.getD_eq_default _ _ (le_of_not_lt hge)] at hm
      cases hm
    refine List.mem_map.mpr ⟨i, List.mem_filter.mpr ⟨List.mem_range.mpr hi, ?_⟩, rfl⟩
    simpa using hm
  · intro x hx
    rcases List.mem_map.mp hx with ⟨y, hy, rfl⟩
    have h1 : minD (getCol i (clampPos rows)) ≤ y := minD_le _ y hy
    have h2 : y ≤ 0 := getCol_clampPos_nonpos rows i y hy
    rw [habs]
    constructor
    · rw [neg_le, ← neg_div]
      rw [div_le_one hpos]
      linarith
    · exact div_nonpos_iff.mpr (Or.inr ⟨h2, le_of_lt hpos⟩)
  · have hne : getCol i (clampPos rows) ≠ [] := by
      intro hnil
      rw [hnil] at hneg
      exact absurd hneg (by norm_num [minD])
    refine List.mem_map.mpr ⟨minD (getCol i (clampPos rows)), minD_mem _ hne, ?_⟩
    rw [habs, div_neg, div_self (ne_of_lt hneg)]

/-- Witness for `c4_normalization_range` on a concrete binned matrix with
both columns retained. -/
theorem c4_normalization_range_witness :
    (([true, true] : List Bool).getD 0 false = true) ∧
    minD (getCol 0 (clampPos [[1, -2], [-4, 3], [-1, -1]])) < 0 ∧
    (normColumn (getCol 0 (clampPos [[1, -2], [-4, 3], [-1, -1]])) ∈
       normMaskedCols (clampPos [[1, -2], [-4, 3], [-1, -1]]) [true, true] ∧
     (∀ x ∈ normColumn (getCol 0 (clampPos [[1, -2], [-4, 3], [-1, -1]])),
        -1 ≤ x ∧ x ≤ 0) ∧
     (-1 : ℚ) ∈ normColumn (getCol 0 (clampPos [[1, -2], [-4, 3], [-1, -1]]))) :=
  ⟨rfl, by norm_num [minD, getCol, clampPos, List.filterMap_cons],
   c4_normalization_range [[1, -2], [-4, 3], [-1, -1]] [true, true] 0 rfl
     (by norm_num [minD, getCol, clampPos, List.filterMap_cons])⟩

/-! ## Claim C5 -/

/-- C5: on a 4-column power matrix, `find_blind_channel` returns as blind
index a minimizer of the per-column 95th-minus-5th percentile range, mapping
index 0 to status `'0110'` and index 3 to `'0101'`; in particular a matrix
whose column 0 is constant while the others vary yields `(0, '0110')`, and
the symmetric matrix with column 3 flat yields `(3, '0101')`. -/
theorem c5_blind_channel_detection :
    (∀ (r : List ℚ) (rs : List (List ℚ)), r.length = 4 →
      (∀ t ∈ rs, t.length = 4) →
      (find_blind_channel (r :: rs)).1 < 4 ∧
      (∀ i, i < 4 →
        (varRanges (r :: rs)).getD ((find_blind_channel (r :: rs)).1) 0 ≤
          (varRanges (r :: rs)).getD i 0) ∧
      ((find_blind_channel (r :: rs)).1 = 0 →
        (find_blind_channel (r :: rs)).2 = some "0110") ∧
      ((find_blind_channel (r :: rs)).1 = 3 →
        (find_blind_channel (r :: rs)).2 = some "0101")) ∧
    find_blind_channel [[0, -5, -3, -2], [0, -1, -9, -4], [0, -7, -2, -8]]
      = (0, some "0110") ∧
    find_blind_channel [[-5, -3, -2, 0], [-1, -9, -4, 0], [-7, -2, -8, 0]]
      = (3, some "0101") := by
  refine ⟨?_, ?_, ?_⟩
  · intro r rs hr _
    have hlen : (varRanges (r :: rs)).length = 4 := by
      simp [varRanges, hr]
    have hne : varRanges (r :: rs) ≠ [] := by
      intro h
      rw [h] at hlen
      cases hlen
    have hmem : minD (varRanges (r :: rs)) ∈ varRanges (r :: rs) :=
      minD_mem _ hne
    have hidx : argminIdx (varRanges (r :: rs)) < 4 := by
      rw [← hlen]
      exact List.indexOf_lt_length.mpr hmem
    have hfst : (find_blind_channel (r :: rs)).1 = argminIdx (varRanges (r :: rs)) := rfl
    refine ⟨by rw [hfst]; exact hidx, ?_, ?_, ?_⟩
    · intro i hi
      have hgetmin : (varRanges (r :: rs)).getD (argminIdx (varRanges (r :: rs))) 0
          = minD (varRanges (r :: rs)) := by
        rw [List.getD_eq_get?, argminIdx, List.indexOf_get? hmem]
        rfl
      rw [hfst, hgetmin]
      exact minD_le _ _ (getD_mem_of_lt _ i (by rw [hlen]; exact hi))
    · intro h0
      rw [hfst] at h0
      simp [find_blind_channel, h0]
    · intro h3
      rw [hfst] at h3
      simp [find_blind_channel, h3]
  · have hrange : List.range 4 = [0, 1, 2, 3] := rfl
    have hv1 : varRanges [[0, -5, -3, -2], [0, -1, -9, -4], [0, -7, -2, -8]]
        = [0, 27/5, 63/10, 27/5] := by
      norm_num [varRanges, percentile, getCol, sortRat, hrange,
        List.insertionSort, List.orderedInsert, List.filterMap_cons]
    have ha1 : argminIdx [0, 27/5, 63/10, 27/5] = 0 := by
      norm_num [argminIdx, minD, List.indexOf, List.findIdx, List.findIdx.go,
        Bool.cond_eq_ite, beq_iff_eq]
    simp [find_blind_channel, hv1, ha1]
  · have hrange : List.range 4 = [0, 1, 2, 3] := rfl
    have hv2 : varRanges [[-5, -3, -2, 0], [-1, -9, -4, 0], [-7, -2, -8, 0]]
        = [27/5, 63/10, 27/5, 0] := by
      norm_num [varRanges, percentile, getCol, sortRat, hrange,
        List.insertionSort, List.orderedInsert, List.filterMap_cons]
    have ha2 : argminIdx [27/5, 63/10, 27/5, 0] = 3 := by
      norm_num [argminIdx, minD, List.indexOf, List.findIdx, List.findIdx.go,
        Bool.cond_eq_ite, beq_iff_eq]
    simp [find_blind_channel, hv2, ha2]

/-- Witness for `c5_blind_channel_detection` instantiating the universally
quantified component at a concrete 4-column matrix. -/
theorem c5_blind_channel_detection_witness :
    (find_blind_channel [[0, -5, -3, -2], [0, -1, -9, -4]]).1 < 4 ∧
    (∀ i, i < 4 →
      (varRanges [[0, -5, -3, -2], [0, -1, -9, -4]]).getD
          ((find_blind_channel [[0, -5, -3, -2], [0, -1, -9, -4]]).1) 0 ≤
        (varRanges [[0, -5, -3, -2], [0, -1, -9, -4]]).getD i 0) ∧
    ((find_blind_channel [[0, -5, -3, -2], [0, -1, -9, -4]]).1 = 0 →
      (find_blind_channel [[0, -5, -3, -2], [0, -1, -9, -4]]).2 = some "0110") ∧
    ((find_blind_channel [[0, -5, -3, -2], [0, -1, -9, -4]]).1 = 3 →
      (find_blind_channel [[0, -5, -3, -2], [0, -1, -9, -4]]).2 = some "0101") :=
  c5_blind_channel_detection.1 [0, -5, -3, -2] [[0, -1, -9, -4]] rfl
    (by intro t ht; rw [List.mem_singleton.mp ht]; rfl)

/-! ## Index bookkeeping for `List.enum` -/

theorem enumFrom_get? {α : Type} (l : List α) :
    ∀ (n i : ℕ), (List.enumFrom n l).get? i = (l.get? i).map (fun a => (n + i, a)) := by
  induction l with
  | nil => intro n i; simp
  | cons b t ih =>
    intro n i
    cases i with
    | zero => simp
    | succ j =>
      show (List.enumFrom (n + 1) t).get? j = (t.get? j).map (fun a => (n + (j + 1), a))
      rw [ih (n + 1) j]
      cases t.get? j with
      | none => rfl
      | some a =>
        simp only [Option.map_some']
        congr 2
        omega

theorem enum_get? {α : Type} (l : List α) (i : ℕ) :
    l.enum.get? i = (l.get? i).map (fun a => (i, a)) := by
  have h := enumFrom_get? l 0 i
  simpa [List.enum] using h

/-! ## How `build_dict_from_results` rewrites the detector arrays -/

theorem updateRow_get? (pss : String) (row : List ℚ) (i : ℕ) :
    (updateRow pss row).get? i =
      (row.get? i).map (fun x => if blindAt pss i then 0 else x) := by
  unfold updateRow
  rw [List.get?_map, enum_get?]
  cases row.get? i <;> rfl

theorem updateRow_getD_blind (pss : String) (row : List ℚ) (i : ℕ)
    (h : blindAt pss i = true) : (updateRow pss row).getD i 0 = 0 := by
  rw [List.getD_eq_get?, updateRow_get?]
  cases row.get? i <;> simp [h]

theorem updateRow_getD_keep (pss : String) (row : List ℚ) (i : ℕ)
    (h : blindAt pss i = false) :
    (updateRow pss row).getD i 0 = row.getD i 0 := by
  rw [List.getD_eq_get?, List.getD_eq_get?, updateRow_get?]
  cases row.get? i <;> simp [h]

theorem updatedDet_get? (PSStatus : List String) (det : List (List ℚ))
    (j : ℕ) :
    (updatedDet PSStatus det).get? j = (det.get? j).map (fun row =>
      match PSStatus.get? j with
      | some pss => updateRow pss row
      | none => row) := by
  unfold updatedDet
  rw [List.get?_map, enum_get?]
  cases det.get? j <;> rfl

theorem updatedDet_getD (PSStatus : List String) (det : List (List ℚ))
    (j : ℕ) (pss : String) (hj : PSStatus.get? j = some pss) :
    (updatedDet PSStatus det).getD j [] = updateRow pss (det.getD j []) := by
  rw [List.getD_eq_get?, List.getD_eq_get?, updatedDet_get?]
  cases det.get? j with
  | none => simp [updateRow]
  | some row =>
    simp only [Option.map_some', Option.getD_some]
    rw [hj]

/-! ## Claim C8 -/

/-- C8: in the Report Parameter Mapping, the per-file detector entry carries
`central_nu = 0` and `bandwidth = 0` for detector index 3 whenever the file's
phase-switch status is `'0101'` and for detector index 0 whenever it is
`'0110'`, while every non-blind detector entry carries the computed per-file
values from the input arrays. -/
theorem c8_report_blind_zeroing (pol : String) (dur : ℚ)
    (PSStatus : List String) (cnu bw : List (List ℚ)) (a b c d : ℚ)
    (j : ℕ) (pss : String) (hj : PSStatus.get? j = some pss) :
    ∃ dets,
      (build_dict_from_results pol dur PSStatus cnu bw a b c d).1.psentries.get? j
        = some ("ps" ++ pss ++ "_" ++ toString j, dets) ∧
      (pss = "0101" → dets.get? 3 = some ("PW3Q2", (0, 0))) ∧
      (pss = "0110" → dets.get? 0 = some ("PW0Q1", (0, 0))) ∧
      (∀ i, i < 4 → blindAt pss i = false →
        ∃ nam, dets.get? i
          = some (nam, ((cnu.getD j []).getD i 0, (bw.getD j []).getD i 0))) := by
  have hpsent : (build_dict_from_results pol dur PSStatus cnu bw a b c d).1.psentries.get? j
      = some ("ps" ++ pss ++ "_" ++ toString j,
          NAMING_CONVENTION.enum.map (fun q =>
            (stripSlash q.2,
             (((updatedDet PSStatus cnu).getD j []).getD q.1 0,
              ((updatedDet PSStatus bw).getD j []).getD q.1 0)))) := by
    show (PSStatus.enum.map _).get? j = _
    rw [List.get?_map, enum_get?, hj]
    rfl
  refine ⟨_, hpsent, ?_, ?_, ?_⟩
  · intro h0101
    subst h0101
    have hz1 : ((updatedDet PSStatus cnu).getD j []).getD 3 0 = 0 := by
      rw [updatedDet_getD PSStatus cnu j _ hj]
      exact updateRow_getD_blind _ _ 3 rfl
    have hz2 : ((updatedDet PSStatus bw).getD j []).getD 3 0 = 0 := by
      rw [updatedDet_getD PSStatus bw j _ hj]
      exact updateRow_getD_blind _ _ 3 rfl
    rw [List.get?_map, enum_get?]
    have hn3 : NAMING_CONVENTION.get? 3 = some "PW3/Q2" := rfl
    rw [hn3]
    simp only [Option.map_some', hz1, hz2]
    rfl
  · intro h0110
    subst h0110
    have hz1 : ((updatedDet PSStatus cnu).getD j []).getD 0 0 = 0 := by
      rw [updatedDet_getD PSStatus cnu j _ hj]
      exact updateRow_getD_blind _ _ 0 rfl
    have hz2 : ((updatedDet PSStatus bw).getD j []).getD 0 0 = 0 := by
      rw [updatedDet_getD PSStatus bw j _ hj]
      exact updateRow_getD_blind _ _ 0 rfl
    rw [List.get?_map, enum_get?]
    have hn0 : NAMING_CONVENTION.get? 0 = some "PW0/Q1" := rfl
    rw [hn0]
    simp only [Option.map_some', hz1, hz2]
    rfl
  · intro i hi hblind
    have hkeep1 : ((updatedDet PSStatus cnu).getD j []).getD i 0
        = (cnu.getD j []).getD i 0 := by
      rw [updatedDet_getD PSStatus cnu j pss hj]
      exact updateRow_getD_keep pss _ i hblind
    have hkeep2 : ((updatedDet PSStatus bw).getD j []).getD i 0
        = (bw.getD j []).getD i 0 := by
      rw [updatedDet_getD PSStatus bw j pss hj]
      exact updateRow_getD_keep pss _ i hblind
    refine ⟨stripSlash (NAMING_CONVENTION.getD i ""), ?_⟩
    rw [List.get?_map, enum_get?]
    have hni : NAMING_CONVENTION.get? i = some (NAMING_CONVENTION.getD i "") := by
      interval_cases i <;> rfl
    rw [hni]
    simp only [Option.map_some', hkeep1, hkeep2]

/-- Witness for `c8_report_blind_zeroing` on a concrete two-file run with
statuses `'0101'` then `'0110'`. -/
theorem c8_report_blind_zeroing_witness :
    ∃ dets,
      (build_dict_from_results "P" 0 ["0101", "0110"]
          [[1, 2, 3, 4], [5, 6, 7, 8]] [[9, 10, 11, 12], [13, 14, 15, 16]]
          0 0 0 0).1.psentries.get? 0
        = some ("ps" ++ "0101" ++ "_" ++ toString 0, dets) ∧
      ("0101" = "0101" → dets.get? 3 = some ("PW3Q2", (0, 0))) ∧
      ("0101" = "0110" → dets.get? 0 = some ("PW0Q1", (0, 0))) ∧
      (∀ i, i < 4 → blindAt "0101" i = false →
        ∃ nam, dets.get? i
          = some (nam, ((([[1, 2, 3, 4], [5, 6, 7, 8]] : List (List ℚ)).getD 0 []).getD i 0,
              (([[9, 10, 11, 12], [13, 14, 15, 16]] : List (List ℚ)).getD 0 []).getD i 0))) :=
  c8_report_blind_zeroing "P" 0 ["0101", "0110"]
    [[1, 2, 3, 4], [5, 6, 7, 8]] [[9, 10, 11, 12], [13, 14, 15, 16]]
    0 0 0 0 0 "0101" rfl

/-! ## Claim C10 -/

/-- C10: `build_dict_from_results` updates the caller's `central_nu_det` and
`bandwidth_det` arrays (an in-place mutation in the source, explicit state in
the embedding): after the call the blind entry of each processed file row is
0 (index 3 for status `'0101'`, index 0 for `'0110'`), every non-blind entry
is unchanged, rows beyond the status list are untouched, and the update is
not the identity, witnessed by a concrete call whose returned array differs
from its input. -/
theorem c10_detector_arrays_mutated :
    (∀ (pol : String) (dur : ℚ) (PSStatus : List String)
        (cnu bw : List (List ℚ)) (a b c d : ℚ) (j : ℕ) (pss : String),
      PSStatus.get? j = some pss →
      ((pss = "0101" →
        (((build_dict_from_results pol dur PSStatus cnu bw a b c d).2.1.getD j []).getD 3 0 = 0 ∧
         ((build_dict_from_results pol dur PSStatus cnu bw a b c d).2.2.getD j []).getD 3 0 = 0)) ∧
       (pss = "0110" →
        (((build_dict_from_results pol dur PSStatus cnu bw a b c d).2.1.getD j []).getD 0 0 = 0 ∧
         ((build_dict_from_results pol dur PSStatus cnu bw a b c d).2.2.getD j []).getD 0 0 = 0)) ∧
       (∀ i, blindAt pss i = false →
        ((build_dict_from_results pol dur PSStatus cnu bw a b c d).2.1.getD j []).getD i 0
            = (cnu.getD j []).getD i 0 ∧
        ((build_dict_from_results pol dur PSStatus cnu bw a b c d).2.2.getD j []).getD i 0
            = (bw.getD j []).getD i 0))) ∧
    (∀ (pol : String) (dur : ℚ) (PSStatus : List String)
        (cnu bw : List (List ℚ)) (a b c d : ℚ) (j : ℕ),
      PSStatus.get? j = none →
      (build_dict_from_results pol dur PSStatus cnu bw a b c d).2.1.get? j = cnu.get? j) ∧
    (build_dict_from_results "P" 0 ["0101"] [[1, 2, 3, 4]] [[5, 6, 7, 8]]
        0 0 0 0).2.1 ≠ [[1, 2, 3, 4]] := by
  refine ⟨?_, ?_, ?_⟩
  · intro pol dur PSStatus cnu bw a b c d j pss hj
    have e1 : (build_dict_from_results pol dur PSStatus cnu bw a b c d).2.1
        = updatedDet PSStatus cnu := rfl
    have e2 : (build_dict_from_results pol dur PSStatus cnu bw a b c d).2.2
        = updatedDet PSStatus bw := rfl
    rw [e1, e2]
    refine ⟨?_, ?_, ?_⟩
    · intro h0101
      rw [updatedDet_getD PSStatus cnu j pss hj,
        updatedDet_getD PSStatus bw j pss hj]
      exact ⟨updateRow_getD_blind pss _ 3 (by rw [h0101]; rfl),
        updateRow_getD_blind pss _ 3 (by rw [h0101]; rfl)⟩
    · intro h0110
      rw [updatedDet_getD PSStatus cnu j pss hj,
        updatedDet_getD PSStatus bw j pss hj]
      exact ⟨updateRow_getD_blind pss _ 0 (by rw [h0110]; rfl),
        updateRow_getD_blind pss _ 0 (by rw [h0110]; rfl)⟩
    · intro i hblind
      rw [updatedDet_getD PSStatus cnu j pss hj,
        updatedDet_getD PSStatus bw j pss hj]
      exact ⟨updateRow_getD_keep pss _ i hblind,
        updateRow_getD_keep pss _ i hblind⟩
  · intro pol dur PSStatus cnu bw a b c d j hj
    have e1 : (build_dict_from_results pol dur PSStatus cnu bw a b c d).2.1
        = updatedDet PSStatus cnu := rfl
    rw [e1, updatedDet_get?, hj]
    cases cnu.get? j <;> rfl
  · intro hEq
    have h30 : ((([[1, 2, 3, 4]] : List (List ℚ)).getD 0 []).getD 3 0) = 4 := rfl
    have hbuilt : (((build_dict_from_results "P" 0 ["0101"] [[1, 2, 3, 4]]
        [[5, 6, 7, 8]] 0 0 0 0).2.1.getD 0 []).getD 3 0) = 0 := by
      have e1 : (build_dict_from_results "P" 0 ["0101"] [[1, 2, 3, 4]]
          [[5, 6, 7, 8]] 0 0 0 0).2.1 = updatedDet ["0101"] [[1, 2, 3, 4]] := rfl
      rw [e1, updatedDet_getD ["0101"] [[1, 2, 3, 4]] 0 "0101" rfl]
      exact updateRow_getD_blind "0101" _ 3 rfl
    rw [hEq] at hbuilt
    rw [h30] at hbuilt
    exact absurd hbuilt (by norm_num)

/-- Witness for `c10_detector_arrays_mutated` instantiating the first
component at a concrete one-file call with status `'0101'`. -/
theorem c10_detector_arrays_mutated_witness :
    ("0101" = "0101" →
      (((build_dict_from_results "P" 0 ["0101"] [[1, 2, 3, 4]] [[5, 6, 7, 8]]
          0 0 0 0).2.1.getD 0 []).getD 3 0 = 0 ∧
       ((build_dict_from_results "P" 0 ["0101"] [[1, 2, 3, 4]] [[5, 6, 7, 8]]
          0 0 0 0).2.2.getD 0 []).getD 3 0 = 0)) ∧
    ("0101" = "0110" →
      (((build_dict_from_results "P" 0 ["0101"] [[1, 2, 3, 4]] [[5, 6, 7, 8]]
          0 0 0 0).2.1.getD 0 []).getD 0 0 = 0 ∧
       ((build_dict_from_results "P" 0 ["0101"] [[1, 2, 3, 4]] [[5, 6, 7, 8]]
          0 0 0 0).2.2.getD 0 []).getD 0 0 = 0)) ∧
    (∀ i, blindAt "0101" i = false →
      ((build_dict_from_results "P" 0 ["0101"] [[1, 2, 3, 4]] [[5, 6, 7, 8]]
          0 0 0 0).2.1.getD 0 []).getD i 0
          = ((([[1, 2, 3, 4]] : List (List ℚ)).getD 0 []).getD i 0) ∧
      ((build_dict_from_results "P" 0 ["0101"] [[1, 2, 3, 4]] [[5, 6, 7, 8]]
          0 0 0 0).2.2.getD 0 []).getD i 0
          = ((([[5, 6, 7, 8]] : List (List ℚ)).getD 0 []).getD i 0)) :=
  c10_detector_arrays_mutated.1 "P" 0 ["0101"] [[1, 2, 3, 4]] [[5, 6, 7, 8]]
    0 0 0 0 0 "0101" rfl

/-! ## Shifting lemmas for the offset round trip -/

theorem orderedInsert_add (k x : ℚ) (l : List ℚ) :
    List.orderedInsert (· ≤ ·) (x + k) (l.map (fun t => t + k))
      = (List.orderedInsert (· ≤ ·) x l).map (fun t => t + k) := by
  induction l with
  | nil => rfl
  | cons a t ih =>
    by_cases h : x ≤ a
    · simp [List.orderedInsert, h, add_le_add_iff_right]
    · simp [List.orderedInsert, h, add_le_add_iff_right, ih]

theorem sortRat_add (l : List ℚ) (k : ℚ) :
    sortRat (l.map (fun t => t + k)) = (sortRat l).map (fun t => t + k) := by
  unfold sortRat
  induction l with
  | nil => rfl
  | cons a t ih => simp [List.insertionSort, ih, orderedInsert_add]

theorem getD_map_add (row : List ℚ) (k : ℚ) (i : ℕ) (hi : i < row.length) :
    (row.map (fun t => t + k)).getD i 0 = row.getD i 0 + k := by
  rw [List.getD_eq_getElem _ _ (by simpa using hi), List.getD_eq_getElem _ _ hi]
  simp

/-- Adding a constant to every sample shifts the median by that constant. -/
theorem median_shift (l : List ℚ) (k : ℚ) (h : l ≠ []) :
    median (l.map (fun t => t + k)) = median l + k := by
  unfold median
  rw [List.length_map, sortRat_add]
  have hlen : (sortRat l).length = l.length := by
    simp [sortRat, List.length_insertionSort]
  have hpos : 0 < l.length := List.length_pos.mpr h
  by_cases hodd : l.length % 2 = 1
  · rw [if_pos hodd, if_pos hodd, getD_map_add _ k _ (by omega)]
  · rw [if_neg hodd, if_neg hodd,
      getD_map_add _ k _ (by omega), getD_map_add _ k _ (by omega)]
    ring

theorem getCol_map_add (rows : List (List ℚ)) (k : ℚ) (i : ℕ) :
    getCol i (rows.map (List.map (fun t => t + k)))
      = (getCol i rows).map (fun t => t + k) := by
  unfold getCol
  rw [List.filterMap_map, List.map_filterMap]
  congr 1
  funext r
  rw [Function.comp_apply, List.get?_map]

theorem zipFilterSnd_shift (xs : List ℚ) (rows : List (List ℚ)) (k : ℚ) :
    ((xs.zip (rows.map (List.map (fun t => t + k)))).filter
        (fun p => decide (p.1 = -1))).map Prod.snd
      = (((xs.zip rows).filter (fun p => decide (p.1 = -1))).map Prod.snd).map
          (List.map (fun t => t + k)) := by
  rw [List.zip_map_right]
  rw [List.filter_map, List.map_map, List.map_map]
  rfl

/-- Reading a list of length 4 back from its `getD` values. -/
theorem map_range_getD_eq (row : List ℚ) (h : row.length = 4) :
    (List.range 4).map (fun i => row.getD i 0) = row := by
  rcases row with _ | ⟨a, _ | ⟨b, _ | ⟨c, _ | ⟨d, rest⟩⟩⟩⟩
  · simp at h
  · simp at h
  · simp at h
  · simp at h
  · have hrest : rest.length = 0 := by
      simp only [List.length_cons] at h
      omega
    rw [List.length_eq_zero.mp hrest]
    rfl

theorem getD_map_range (f : ℕ → ℚ) (n i : ℕ) (hi : i < n) :
    ((List.range n).map f).getD i 0 = f i := by
  rw [List.getD_eq_getElem _ _ (by simpa using hi)]
  simp

theorem offsetRowsFirst_subset (nu : List ℚ) (D : List (List ℚ)) :
    ∀ r ∈ offsetRowsFirst nu D, r ∈ D := by
  intro r hr
  unfold offsetRowsFirst at hr
  rcases List.mem_map.mp hr with ⟨p, hp, rfl⟩
  obtain ⟨x, row⟩ := p
  exact List.take_subset _ _ (List.of_mem_zip (List.mem_of_mem_filter hp)).2

theorem offsetRowsSecond_subset (nu : List ℚ) (D : List (List ℚ)) :
    ∀ r ∈ offsetRowsSecond nu D, r ∈ D := by
  intro r hr
  unfold offsetRowsSecond at hr
  rcases List.mem_map.mp hr with ⟨p, hp, rfl⟩
  obtain ⟨x, row⟩ := p
  exact List.drop_subset _ _ (List.of_mem_zip (List.mem_of_mem_filter hp)).2

/-- The per-detector medians of a shifted block of rows, read at a valid
detector index, are the unshifted medians plus the shift. -/
theorem medianCols_shift_getD (sel : List (List ℚ)) (k : ℚ)
    (h0 : List ℚ) (t0 : List (List ℚ)) (hsel : sel = h0 :: t0)
    (hh0 : h0.length = 4) (i : ℕ) (hi : i < 4) :
    (medianCols (sel.map (List.map (fun t => t + k)))).getD i 0
      = median (getCol i sel) + k := by
  subst hsel
  have hne : getCol i (h0 :: t0) ≠ [] := by
    unfold getCol
    rw [List.filterMap_cons]
    rw [List.get?_eq_get (show i < h0.length by omega)]
    exact List.cons_ne_nil _ _
  show (medianCols ((h0.map (fun t => t + k)) ::
      t0.map (List.map (fun t => t + k)))).getD i 0 = _
  unfold medianCols
  rw [show (((h0.map (fun t => t + k)) ::
      t0.map (List.map (fun t => t + k))).headD []).length = 4 by
    simp [hh0]]
  rw [getD_map_range _ 4 i hi]
  rw [show ((h0.map (fun t => t + k)) :: t0.map (List.map (fun t => t + k)))
      = (h0 :: t0).map (List.map (fun t => t + k)) from rfl]
  rw [getCol_map_add, median_shift _ k hne]

/-! ## Claim C7 -/

/-- C7: if the off-sentinel rows of both temporal halves of `D` have
per-detector median 0, then `remove_offset` applied to `D` with a constant
`k` added to every element returns exactly `D`: the fitted offset line is the
constant `k` and the subtraction undoes the shift.  The hypotheses `hpos` and
`hx` delimit the domain on which the embedding is faithful to numpy: with no
positive frequency `np.min` raises, and with coincident abscissae
`np.polyfit` degenerates to a least-squares solution instead of the
interpolating line. -/
theorem c7_offset_removal_round_trip (nu : List ℚ) (D : List (List ℚ))
    (k : ℚ) (hlen : nu.length = D.length)
    (hrows : ∀ r ∈ D, r.length = 4)
    (hne1 : offsetRowsFirst nu D ≠ [])
    (hne2 : offsetRowsSecond nu D ≠ [])
    (hmed1 : ∀ i, i < 4 → median (getCol i (offsetRowsFirst nu D)) = 0)
    (hmed2 : ∀ i, i < 4 → median (getCol i (offsetRowsSecond nu D)) = 0)
    (hpos : nu.filter (fun t => decide (0 < t)) ≠ [])
    (hx : minD (nu.filter (fun t => decide (0 < t))) ≠ maxD nu) :
    remove_offset nu (D.map (List.map (fun t => t + k))) = D := by
  have h1 : offsetRowsFirst nu (D.map (List.map (fun t => t + k)))
      = (offsetRowsFirst nu D).map (List.map (fun t => t + k)) := by
    unfold offsetRowsFirst
    rw [List.length_map, ← List.map_take]
    exact zipFilterSnd_shift _ _ k
  have h2 : offsetRowsSecond nu (D.map (List.map (fun t => t + k)))
      = (offsetRowsSecond nu D).map (List.map (fun t => t + k)) := by
    unfold offsetRowsSecond
    rw [List.length_map, ← List.map_drop]
    exact zipFilterSnd_shift _ _ k
  obtain ⟨a1, t1, hsel1⟩ : ∃ a1 t1, offsetRowsFirst nu D = a1 :: t1 := by
    cases hE : offsetRowsFirst nu D with
    | nil => exact absurd hE hne1
    | cons a b => exact ⟨a, b, rfl⟩
  obtain ⟨a2, t2, hsel2⟩ : ∃ a2 t2, offsetRowsSecond nu D = a2 :: t2 := by
    cases hE : offsetRowsSecond nu D with
    | nil => exact absurd hE hne2
    | cons a b => exact ⟨a, b, rfl⟩
  have ha1 : a1.length = 4 :=
    hrows a1 (offsetRowsFirst_subset nu D a1 (hsel1 ▸ List.mem_cons_self a1 t1))
  have ha2 : a2.length = 4 :=
    hrows a2 (offsetRowsSecond_subset nu D a2 (hsel2 ▸ List.mem_cons_self a2 t2))
  have hfo : ∀ i, i < 4 →
      (medianCols (offsetRowsFirst nu (D.map (List.map (fun t => t + k))))).getD i 0
        = k := by
    intro i hi
    rw [h1, medianCols_shift_getD _ k a1 t1 hsel1 ha1 i hi, hmed1 i hi, zero_add]
  have hso : ∀ i, i < 4 →
      (medianCols (offsetRowsSecond nu (D.map (List.map (fun t => t + k))))).getD i 0
        = k := by
    intro i hi
    rw [h2, medianCols_shift_getD _ k a2 t2 hsel2 ha2 i hi, hmed2 i hi, zero_add]
  have hcoef : ∀ y u v : ℚ, polyfit1 u v y y = (0, y) := by
    intro y u v
    unfold polyfit1
    norm_num
  unfold remove_offset
  rw [List.zip_map_right, List.map_map]
  refine Eq.trans (List.map_congr_left ?_) (List.map_snd_zip nu D (le_of_eq hlen.symm))
  intro p hp
  obtain ⟨x, row⟩ := p
  have hrow : row ∈ D := (List.of_mem_zip hp).2
  have hrl : row.length = 4 := hrows row hrow
  simp only [Function.comp_apply, Prod.map_mk, id_eq]
  conv_rhs => rw [← map_range_getD_eq row hrl]
  apply List.map_congr_left
  intro i hi
  have hi4 : i < 4 := List.mem_range.mp hi
  simp only [hfo i hi4, hso i hi4, hcoef, getD_map_add row k i (by omega)]
  ring

/-- Witness for `c7_offset_removal_round_trip`: a 4-sample acquisition whose
off-sentinel rows are zero in both halves, shifted by 10 and recovered. -/
theorem c7_offset_removal_round_trip_witness :
    remove_offset [-1, 2, 3, -1]
      (([[0, 0, 0, 0], [5, 6, 7, 8], [9, 10, 11, 12], [0, 0, 0, 0]] :
          List (List ℚ)).map (List.map (fun t => t + 10)))
      = [[0, 0, 0, 0], [5, 6, 7, 8], [9, 10, 11, 12], [0, 0, 0, 0]] := by
  refine c7_offset_removal_round_trip [-1, 2, 3, -1]
    [[0, 0, 0, 0], [5, 6, 7, 8], [9, 10, 11, 12], [0, 0, 0, 0]] 10
    rfl ?_ ?_ ?_ ?_ ?_ ?_ ?_
  · intro r hr
    fin_cases hr <;> rfl
  · intro h
    rw [show offsetRowsFirst [-1, 2, 3, -1]
      [[0, 0, 0, 0], [5, 6, 7, 8], [9, 10, 11, 12], [0, 0, 0, 0]]
        = [[0, 0, 0, 0]] by rfl] at h
    cases h
  · intro h
    rw [show offsetRowsSecond [-1, 2, 3, -1]
      [[0, 0, 0, 0], [5, 6, 7, 8], [9, 10, 11, 12], [0, 0, 0, 0]]
        = [[0, 0, 0, 0]] by rfl] at h
    cases h
  · intro i hi
    interval_cases i <;> rfl
  · intro i hi
    interval_cases i <;> rfl
  · intro h
    rw [show ([-1, 2, 3, -1] : List ℚ).filter (fun t => decide (0 < t))
        = [2, 3] by norm_num] at h
    cases h
  · rw [show ([-1, 2, 3, -1] : List ℚ).filter (fun t => decide (0 < t))
        = [2, 3] by norm_num]
    norm_num [minD, maxD]

/-! ## Sums over a rectangular window of a uniform grid -/

theorem sum_map_range (f : ℕ → ℚ) :
    ∀ n, ((List.range n).map f).sum = ∑ i in Finset.range n, f i := by
  intro n
  induction n with
  | zero => rfl
  | succ m ih =>
    rw [List.range_succ, List.map_append, List.sum_append,
      Finset.sum_range_succ, ih]
    simp

theorem arithGrid_succ (nu0 d : ℚ) (n : ℕ) :
    arithGrid nu0 d (n + 1) = nu0 :: arithGrid (nu0 + d) d n := by
  unfold arithGrid
  rw [List.range_succ_eq_map, List.map_cons, List.map_map]
  congr 1
  · norm_num
  · apply List.map_congr_left
    intro i _
    simp only [Function.comp_apply]
    push_cast
    ring

theorem diffsOf_cons_cons (a b : ℚ) (l : List ℚ) :
    diffsOf (a :: b :: l) = (b - a) :: diffsOf (b :: l) := rfl

theorem diffsOf_arithGrid (d : ℚ) :
    ∀ (n : ℕ) (nu0 : ℚ), 1 ≤ n →
      diffsOf (arithGrid nu0 d n) = List.replicate (n - 1) d := by
  intro n
  induction n with
  | zero => intro nu0 h; omega
  | succ m ih =>
    intro nu0 _
    cases m with
    | zero => rfl
    | succ p =>
      rw [arithGrid_succ, arithGrid_succ, diffsOf_cons_cons, ← arithGrid_succ,
        ih (nu0 + d) (by omega)]
      simp [List.replicate_succ, add_sub_cancel_left]

theorem allcloseTo_replicate (m : ℕ) (d : ℚ) :
    allcloseTo (List.replicate m d) d = true := by
  unfold allcloseTo
  rw [List.all_eq_true]
  intro a ha
  rw [List.eq_of_mem_replicate ha, decide_eq_true_eq, sub_self, abs_zero]
  have h1 : (0 : ℚ) ≤ RTOL * |d| :=
    mul_nonneg (by norm_num [RTOL]) (abs_nonneg d)
  have h2 : (0 : ℚ) < ATOL := by norm_num [ATOL]
  linarith

theorem rectCol_sum (A : ℚ) (j w n : ℕ) (h : j + w ≤ n) :
    (rectCol A j w n).sum = (w : ℚ) * A := by
  unfold rectCol
  rw [sum_map_range]
  have hsub : Finset.Ico j (j + w) ⊆ Finset.range n := by
    intro x hx
    rw [Finset.mem_range]
    have := (Finset.mem_Ico.mp hx).2
    omega
  simp only [← Finset.mem_Ico]
  rw [Finset.sum_ite_mem, Finset.inter_eq_right.mpr hsub, Finset.sum_const,
    Nat.card_Ico, Nat.add_sub_cancel_left, nsmul_eq_mul]

theorem sum_range_cast (n : ℕ) :
    ∑ i in Finset.range n, (i : ℚ) = n * ((n : ℚ) - 1) / 2 := by
  induction n with
  | zero => simp
  | succ m ih =>
    rw [Finset.sum_range_succ, ih]
    push_cast
    ring

theorem sum_Ico_cast (j w : ℕ) :
    ∑ i in Finset.Ico j (j + w), (i : ℚ)
      = (w : ℚ) * j + (w : ℚ) * ((w : ℚ) - 1) / 2 := by
  rw [Finset.sum_Ico_eq_sub _ (Nat.le_add_right j w), sum_range_cast,
    sum_range_cast]
  push_cast
  ring

theorem rectCol_weighted_sum (A nu0 d : ℚ) (j w n : ℕ) (h : j + w ≤ n) :
    (((rectCol A j w n).zip (arithGrid nu0 d n)).map (fun p => p.1 * p.2)).sum
      = A * ((w : ℚ) * nu0 + d * ((w : ℚ) * j + (w : ℚ) * ((w : ℚ) - 1) / 2)) := by
  unfold rectCol arithGrid
  rw [List.zip_map', List.map_map, sum_map_range]
  have hsub : Finset.Ico j (j + w) ⊆ Finset.range n := by
    intro x hx
    rw [Finset.mem_range]
    have := (Finset.mem_Ico.mp hx).2
    omega
  simp only [Function.comp_apply, ite_mul, zero_mul]
  simp only [← Finset.mem_Ico]
  rw [Finset.sum_ite_mem, Finset.inter_eq_right.mpr hsub]
  have expand : ∀ i : ℕ, A * (nu0 + (i : ℚ) * d) = A * nu0 + (A * d) * (i : ℚ) := by
    intro i
    ring
  rw [Finset.sum_congr rfl (fun i _ => expand i), Finset.sum_add_distrib,
    Finset.sum_const, ← Finset.mul_sum, sum_Ico_cast, Nat.card_Ico,
    Nat.add_sub_cancel_left, nsmul_eq_mul]
  ring

theorem rectCol_map_sq (A : ℚ) (j w n : ℕ) :
    (rectCol A j w n).map (fun x => x ^ 2) = rectCol (A ^ 2) j w n := by
  unfold rectCol
  rw [List.map_map]
  apply List.map_congr_left
  intro i _
  by_cases hc : j ≤ i ∧ i < j + w <;> simp [hc]

/-! ## Claim C6 -/

/-- C6: on a uniform grid with step `d`, a column holding the constant
`A ≠ 0` on a contiguous window of `w ≥ 1` samples and 0 elsewhere yields a
central frequency exactly at the midpoint between the first and last window
frequencies, and a bandwidth of exactly `w·d`, which is within one grid step
of the window width `(w-1)·d`. -/
theorem c6_rectangular_response (nu0 d A : ℚ) (n j w : ℕ)
    (hd : d ≠ 0) (hA : A ≠ 0) (hw : 1 ≤ w) (hjw : j + w ≤ n) (hn : 2 ≤ n) :
    get_central_nu_bandwidth (arithGrid nu0 d n) (rectCol A j w n)
      = Except.ok
          (((nu0 + (j : ℚ) * d) + (nu0 + ((j : ℚ) + (w : ℚ) - 1) * d)) / 2,
           (w : ℚ) * d) ∧
    |(w : ℚ) * d - ((w : ℚ) - 1) * d| ≤ |d| := by
  have hwq : (0 : ℚ) < (w : ℚ) := by exact_mod_cast hw
  constructor
  · unfold get_central_nu_bandwidth
    have hdiffs : diffsOf (arithGrid nu0 d n) = List.replicate (n - 1) d :=
      diffsOf_arithGrid d n nu0 (by omega)
    have hhead : (List.replicate (n - 1) d).headD 0 = d := by
      obtain ⟨m, hm⟩ : ∃ m, n - 1 = m + 1 := ⟨n - 2, by omega⟩
      rw [hm, List.replicate_succ]
      rfl
    rw [hdiffs, hhead, allcloseTo_replicate, if_pos rfl]
    have hsum := rectCol_sum A j w n hjw
    have hwsum := rectCol_weighted_sum A nu0 d j w n hjw
    have hsq : ((rectCol A j w n).map (fun x => x ^ 2)).sum = (w : ℚ) * A ^ 2 := by
      rw [rectCol_map_sq]
      exact rectCol_sum (A ^ 2) j w n hjw
    rw [hsum, hwsum, hsq]
    refine congrArg Except.ok (Prod.ext ?_ ?_)
    · show A * ((w : ℚ) * nu0 + d * ((w : ℚ) * j + (w : ℚ) * ((w : ℚ) - 1) / 2))
          / ((w : ℚ) * A) = _
      field_simp
      ring
    · show ((w : ℚ) * A) ^ 2 * d / ((w : ℚ) * A ^ 2) = (w : ℚ) * d
      field_simp
      ring
  · have h1 : (w : ℚ) * d - ((w : ℚ) - 1) * d = d := by ring
    rw [h1]

/-- Witness for `c6_rectangular_response`: grid `[0, 1, 2, 3, 4]` with a
window of 3 samples of height −2 starting at index 1; the central frequency
is 2 and the bandwidth 3. -/
theorem c6_rectangular_response_witness :
    get_central_nu_bandwidth (arithGrid 0 1 5) (rectCol (-2) 1 3 5)
      = Except.ok
          (((0 + ((1 : ℕ) : ℚ) * 1) + (0 + (((1 : ℕ) : ℚ) + ((3 : ℕ) : ℚ) - 1) * 1)) / 2,
           ((3 : ℕ) : ℚ) * 1) ∧
    |((3 : ℕ) : ℚ) * 1 - (((3 : ℕ) : ℚ) - 1) * 1| ≤ |(1 : ℚ)| :=
  c6_rectangular_response 0 1 (-2) 5 1 3 (by norm_num) (by norm_num)
    (by norm_num) (by norm_num) (by norm_num)

/-! ## Contiguous-run facts for frequency binning -/

theorem filter_fst_eq_nil {α β : Type} [DecidableEq α] (v : α)
    (pr : List (α × β)) (h : v ∉ pr.map Prod.fst) :
    pr.filter (fun q => decide (q.1 = v)) = [] := by
  induction pr with
  | nil => rfl
  | cons a t ih =>
    rw [List.map_cons] at h
    simp only [List.mem_cons, not_or] at h
    simp only [List.filter_cons, decide_eq_true_eq]
    rw [if_neg (fun he => h.1 he.symm)]
    exact ih h.2

/-- Under the contiguity hypothesis, filtering the pairs at first component
`v` picks out exactly the positional slice `[p.length, p.length + c)` of the
second components. -/
theorem filter_map_snd_eq_slice {α β : Type} [DecidableEq α] (v : α)
    (s : List α) :
    ∀ (pr : List (α × β)) (p : List α) (c : ℕ),
      pr.map Prod.fst = p ++ List.replicate c v ++ s → v ∉ p → v ∉ s →
      (pr.filter (fun q => decide (q.1 = v))).map Prod.snd
        = ((pr.map Prod.snd).drop p.length).take c := by
  intro pr
  induction pr with
  | nil =>
    intro p c hdec hp hs
    rw [List.map_nil] at hdec
    obtain ⟨hp0, hs0⟩ := List.append_eq_nil.mp hdec.symm
    obtain ⟨hpnil, hr0⟩ := List.append_eq_nil.mp hp0
    have hc0 : c = 0 := by
      have := congrArg List.length hr0
      simpa using this
    subst hc0
    simp
  | cons ab t ih =>
    intro p c hdec hp hs
    obtain ⟨a, b⟩ := ab
    rw [List.map_cons] at hdec
    cases p with
    | cons x p2 =>
      rw [List.cons_append, List.cons_append] at hdec
      injection hdec with h1 h2
      have h1x : a = x := h1
      subst h1x
      simp only [List.filter_cons, decide_eq_true_eq]
      rw [if_neg (fun he => hp (List.mem_cons.mpr (Or.inl ((he : a = v)).symm)))]
      rw [List.map_cons, List.length_cons, List.drop_succ_cons]
      exact ih p2 c h2 (fun hm => hp (List.mem_cons_of_mem a hm)) hs
    | nil =>
      rw [List.nil_append] at hdec
      cases c with
      | zero =>
        rw [List.replicate_zero, List.nil_append] at hdec
        have hnm : v ∉ ((a, b) :: t : List (α × β)).map Prod.fst := by
          rw [List.map_cons, hdec]
          exact hs
        rw [filter_fst_eq_nil v _ hnm]
        simp
      | succ c2 =>
        rw [List.replicate_succ, List.cons_append] at hdec
        injection hdec with h1 h2
        simp only [List.filter_cons, decide_eq_true_eq]
        rw [if_pos h1, List.map_cons, List.map_cons, List.length_nil,
          List.drop_zero, List.take_succ_cons]
        have hrec := ih [] c2 (by simpa using h2) (List.not_mem_nil v) hs
        rw [List.length_nil, List.drop_zero] at hrec
        rw [hrec]

theorem indexOf_decomp {α : Type} [DecidableEq α] (v : α) (s : List α)
    (c : ℕ) (hc : 1 ≤ c) :
    ∀ p : List α, v ∉ p →
      (p ++ List.replicate c v ++ s).indexOf v = p.length := by
  intro p
  induction p with
  | nil =>
    intro _
    cases c with
    | zero => omega
    | succ c2 =>
      rw [List.nil_append, List.replicate_succ, List.cons_append]
      simp [List.indexOf_cons_self]
  | cons x p2 ih =>
    intro hp
    have hxv : x ≠ v := fun he => hp (he ▸ List.mem_cons_self x p2)
    rw [List.cons_append, List.cons_append, List.indexOf_cons_ne _ hxv]
    rw [show ((p2 ++ List.replicate c v) ++ s) = p2 ++ List.replicate c v ++ s from rfl]
    rw [ih (fun hm => hp (List.mem_cons_of_mem x hm))]
    rfl

theorem count_decomp {α : Type} [DecidableEq α] (v : α) (p s : List α)
    (c : ℕ) (hp : v ∉ p) (hs : v ∉ s) :
    (p ++ List.replicate c v ++ s).count v = c := by
  rw [List.count_append, List.count_append, List.count_replicate_self,
    List.count_eq_zero.mpr hp, List.count_eq_zero.mpr hs]
  omega

theorem mem_uniqueVals (l : List ℚ) (v : ℚ) : v ∈ uniqueVals l ↔ v ∈ l := by
  unfold uniqueVals sortRat
  rw [(List.perm_insertionSort (· ≤ ·) l.dedup).mem_iff, List.mem_dedup]

theorem slice_trim (ds : List (List ℚ)) (j c rej : ℕ) :
    (((ds.drop j).take c).drop rej).take (c - 2 * rej)
      = (ds.drop (j + rej)).take (c - 2 * rej) := by
  rw [List.drop_take, List.take_take, List.drop_drop,
    min_eq_left (by omega : c - 2 * rej ≤ c - rej)]

/-! ## Claim C3 -/

/-- C3: when the distinct frequency `v` occupies, in the positively-filtered
sample stream, a contiguous run of `c > 2·rej` samples (the decomposition
hypothesis), `get_frequency_range_and_data` returns one row per distinct
positive frequency (samples at non-positive `nu` never contribute), the row
for `v` being the per-detector median of the run at `v` with its first and
last `rej` samples dropped, and its squared standard error being the
per-detector variance of the same trimmed run divided by `c` (the square of
std/√c). -/
theorem c3_frequency_binning (nu : List ℚ) (data : List (List ℚ))
    (rej c : ℕ) (v : ℚ) (p s : List ℚ)
    (hdecomp : ((nu.zip data).filter (fun q => decide (0 < q.1))).map Prod.fst
      = p ++ List.replicate c v ++ s)
    (hp : v ∉ p) (hs : v ∉ s) (hc : 2 * rej < c) :
    (get_frequency_range_and_data nu data rej).1
        = uniqueVals (((nu.zip data).filter (fun q => decide (0 < q.1))).map Prod.fst) ∧
    (∀ u ∈ (get_frequency_range_and_data nu data rej).1, 0 < u) ∧
    (get_frequency_range_and_data nu data rej).2.1.length
        = (get_frequency_range_and_data nu data rej).1.length ∧
    (get_frequency_range_and_data nu data rej).2.2.length
        = (get_frequency_range_and_data nu data rej).1.length ∧
    ∃ i, (get_frequency_range_and_data nu data rej).1.get? i = some v ∧
      (get_frequency_range_and_data nu data rej).2.1.get? i
        = some (medianCols (trim rej (samplesAt v nu data))) ∧
      (get_frequency_range_and_data nu data rej).2.2.get? i
        = some ((varCols (trim rej (samplesAt v nu data))).map
            (fun t => t / (c : ℚ))) := by
  set pairs := (nu.zip data).filter (fun q => decide (0 < q.1)) with hpairs
  set ys := pairs.map Prod.fst with hys
  set ds := pairs.map Prod.snd with hds
  have e1 : (get_frequency_range_and_data nu data rej).1 = uniqueVals ys := rfl
  have e2 : (get_frequency_range_and_data nu data rej).2.1
      = (uniqueVals ys).map (fun u =>
          medianCols ((ds.drop (ys.indexOf u + rej)).take (ys.count u - 2 * rej))) := rfl
  have e3 : (get_frequency_range_and_data nu data rej).2.2
      = (uniqueVals ys).map (fun u =>
          (varCols ((ds.drop (ys.indexOf u + rej)).take (ys.count u - 2 * rej))).map
            (fun t => t / (ys.count u : ℚ))) := rfl
  have hposmem : ∀ u ∈ ys, 0 < u := by
    intro u hu
    rcases List.mem_map.mp hu with ⟨q, hq, rfl⟩
    have := List.of_mem_filter hq
    exact of_decide_eq_true this
  have hvys : v ∈ ys := by
    rw [hdecomp]
    refine List.mem_append.mpr (Or.inl (List.mem_append.mpr (Or.inr ?_)))
    exact List.mem_replicate.mpr ⟨by omega, rfl⟩
  have hvpos : 0 < v := hposmem v hvys
  have hidx : ys.indexOf v = p.length := by
    rw [hdecomp]
    exact indexOf_decomp v s c (by omega) p hp
  have hcount : ys.count v = c := by
    rw [hdecomp]
    exact count_decomp v p s c hp hs
  have hlens : ds.length = p.length + c + s.length := by
    have h1 : ds.length = pairs.length := List.length_map pairs Prod.snd
    have h2 : ys.length = pairs.length := List.length_map pairs Prod.fst
    have h3 := congrArg List.length hdecomp
    simp only [List.length_append, List.length_replicate] at h3
    omega
  have hslice : (pairs.filter (fun q => decide (q.1 = v))).map Prod.snd
      = (ds.drop p.length).take c :=
    filter_map_snd_eq_slice v s pairs p c hdecomp hp hs
  have hrun : samplesAt v nu data = (ds.drop p.length).take c := by
    unfold samplesAt
    rw [← hslice, hpairs, List.filter_filter]
    congr 1
    apply List.filter_congr
    intro q _
    by_cases hqv : q.1 = v
    · simp [hqv, hvpos]
    · simp [hqv]
  have hrunlen : (samplesAt v nu data).length = c := by
    rw [hrun, List.length_take, List.length_drop, hlens]
    omega
  have htrim : trim rej (samplesAt v nu data)
      = (ds.drop (p.length + rej)).take (c - 2 * rej) := by
    unfold trim
    rw [hrunlen, hrun, slice_trim]
  refine ⟨e1, ?_, ?_, ?_, ?_⟩
  · intro u hu
    rw [e1] at hu
    exact hposmem u ((mem_uniqueVals ys u).mp hu)
  · rw [e1, e2, List.length_map]
  · rw [e1, e3, List.length_map]
  · have hvu : v ∈ uniqueVals ys := (mem_uniqueVals ys v).mpr hvys
    refine ⟨(uniqueVals ys).indexOf v, ?_, ?_, ?_⟩
    · rw [e1]
      exact List.indexOf_get? hvu
    · rw [e2, List.get?_map, List.indexOf_get? hvu]
      simp only [Option.map_some']
      rw [hidx, hcount, ← htrim]
    · rw [e3, List.get?_map, List.indexOf_get? hvu]
      simp only [Option.map_some']
      rw [hidx, hcount, ← htrim]

/-- Witness for `c3_frequency_binning`: frequency 5 is swept for 3 samples
(flanked by off samples at −1 and a second plateau at 7) and binned with
`rej = 1`. -/
theorem c3_frequency_binning_witness :
    (get_frequency_range_and_data [-1, 5, 5, 5, 7, 7, 7, -1]
        [[0, 0], [1, 10], [2, 20], [3, 30], [4, 40], [5, 50], [6, 60], [7, 70]] 1).1
      = uniqueVals (((([-1, 5, 5, 5, 7, 7, 7, -1] : List ℚ).zip
          ([[0, 0], [1, 10], [2, 20], [3, 30], [4, 40], [5, 50], [6, 60], [7, 70]] :
            List (List ℚ))).filter (fun q => decide (0 < q.1))).map Prod.fst) ∧
    (∀ u ∈ (get_frequency_range_and_data [-1, 5, 5, 5, 7, 7, 7, -1]
        [[0, 0], [1, 10], [2, 20], [3, 30], [4, 40], [5, 50], [6, 60], [7, 70]] 1).1,
      0 < u) ∧
    (get_frequency_range_and_data [-1, 5, 5, 5, 7, 7, 7, -1]
        [[0, 0], [1, 10], [2, 20], [3, 30], [4, 40], [5, 50], [6, 60], [7, 70]] 1).2.1.length
      = (get_frequency_range_and_data [-1, 5, 5, 5, 7, 7, 7, -1]
        [[0, 0], [1, 10], [2, 20], [3, 30], [4, 40], [5, 50], [6, 60], [7, 70]] 1).1.length ∧
    (get_frequency_range_and_data [-1, 5, 5, 5, 7, 7, 7, -1]
        [[0, 0], [1, 10], [2, 20], [3, 30], [4, 40], [5, 50], [6, 60], [7, 70]] 1).2.2.length
      = (get_frequency_range_and_data [-1, 5, 5, 5, 7, 7, 7, -1]
        [[0, 0], [1, 10], [2, 20], [3, 30], [4, 40], [5, 50], [6, 60], [7, 70]] 1).1.length ∧
    ∃ i, (get_frequency_range_and_data [-1, 5, 5, 5, 7, 7, 7, -1]
        [[0, 0], [1, 10], [2, 20], [3, 30], [4, 40], [5, 50], [6, 60], [7, 70]] 1).1.get? i
        = some 5 ∧
      (get_frequency_range_and_data [-1, 5, 5, 5, 7, 7, 7, -1]
        [[0, 0], [1, 10], [2, 20], [3, 30], [4, 40], [5, 50], [6, 60], [7, 70]] 1).2.1.get? i
        = some (medianCols (trim 1 (samplesAt 5 [-1, 5, 5, 5, 7, 7, 7, -1]
            [[0, 0], [1, 10], [2, 20], [3, 30], [4, 40], [5, 50], [6, 60], [7, 70]]))) ∧
      (get_frequency_range_and_data [-1, 5, 5, 5, 7, 7, 7, -1]
        [[0, 0], [1, 10], [2, 20], [3, 30], [4, 40], [5, 50], [6, 60], [7, 70]] 1).2.2.get? i
        = some ((varCols (trim 1 (samplesAt 5 [-1, 5, 5, 5, 7, 7, 7, -1]
            [[0, 0], [1, 10], [2, 20], [3, 30], [4, 40], [5, 50], [6, 60], [7, 70]]))).map
              (fun t => t / ((3 : ℕ) : ℚ))) :=
  c3_frequency_binning [-1, 5, 5, 5, 7, 7, 7, -1]
    [[0, 0], [1, 10], [2, 20], [3, 30], [4, 40], [5, 50], [6, 60], [7, 70]]
    1 3 5 [] [7, 7, 7]
    (by norm_num [List.zip, List.zipWith, List.filter, List.replicate])
    (by norm_num) (by norm_num) (by norm_num)

end Striptun
